import Mathlib

/-!
# rasm — WebAssembly subset decoder and interpreter, verified embedding

Shallow embedding of the rasm sources (`src/module.rs`, `src/instance.rs`)
together with the LEB128 reader of the `leb128` crate (v0.2) they call into.

Conventions:
* bytes are `UInt8`; Rust `u64`/`u32`/`i64`/`i32` values are `Nat`/`Int`
  with explicit reduction modulo the word size wherever the machine width
  matters (`% 2 ^ 64`, `wrap32`, …);
* Rust aborts (out-of-bounds indexing, `.unwrap()` of `None`,
  `copy_to_slice` past the end of the buffer) are modelled as dedicated
  `Err` constructors whose names begin with `panic`, kept separate from
  the `anyhow::bail!` failures the source returns as `Result` values;
* byte cursors (`&[u8]` advanced by `bytes::Buf`) become explicit
  `List UInt8` remainders returned next to each decoded value.
-/

namespace Rasm

/-- Two's-complement interpretation of the low 32 bits of an integer: the
value of a Rust `as i32` cast, and of wrapping 32-bit arithmetic. -/
def wrap32 (z : Int) : Int := (z + 2 ^ 31) % 2 ^ 32 - 2 ^ 31

/-- Rust `i32::saturating_mul` clamping, as used by `Function::i32_mul`
(`instance.rs` line 85). -/
def sat32 (z : Int) : Int := max (-(2 ^ 31)) (min z (2 ^ 31 - 1))

/-- Two's-complement value of a 64-bit pattern (a `u64` bit pattern
reinterpreted as `i64`). -/
def toInt64 (pat : Nat) : Int := if pat < 2 ^ 63 then (pat : Int) else (pat : Int) - 2 ^ 64

/-- `module.rs` `Val`: the decoded value-type tags. -/
inductive Val where
  | I32
  | I64
  | F32
  | F64
  | V128
  | FuncRef
  | ExternRef
deriving DecidableEq

/-- `module.rs` `FuncType`: parameter and result types of a signature. -/
structure FuncType where
  params : List Val
  results : List Val
deriving DecidableEq

/-- `module.rs` `Instr`.  `ConstF64` stores the 8 decoded little-endian
bytes as their 64-bit pattern (a `Nat` below `2 ^ 64`): the source only
ever constructs and moves the `f64`, never computes with it, so the bit
pattern is a faithful representation. -/
inductive Instr where
  | LocalGet (n : Nat)
  | LoadI32 (z : Int)
  | I32Add
  | I32Mul
  | Call (n : Nat)
  | DivI32U
  | End
  | ConstF64 (pat : Nat)
deriving DecidableEq

/-- `module.rs` `Func`: signature, expanded locals, decoded body. -/
structure Func where
  ty : FuncType
  locals : List Val
  body : List Instr
deriving DecidableEq

/-- `module.rs` `Export`: name, kind tag (`ty`) and target index, both
read as unsigned varints (`u64`, hence `Nat`). -/
structure Export where
  name : String
  ty : Nat
  idx : Nat
deriving DecidableEq

/-- `module.rs` `Module`: decoded functions and exports. -/
structure Module where
  funcs : List Func
  exports : List Export
deriving DecidableEq

/-- Failure outcomes of decoding and execution.  Constructors whose name
begins with `panic` model Rust aborts (array indexing out of bounds,
`.unwrap()` of `None`, `copy_to_slice` beyond the buffer), which are not
`Result` values in the source; the remaining constructors model the
`leb128` crate's errors and the source's `anyhow::bail!` failures.
`outOfFuel` is an artifact of the termination measure of
`parseInstrsAux`; it is never produced when the fuel exceeds the input
length (see `parseInstrsAux_fuel_adequate`). -/
inductive Err where
  | eof
  | lebOverflow
  | unknownType (b : UInt8)
  | typeMismatchI32
  | exportNotFound (name : String)
  | panicLocalIndex
  | panicPopUnwrap
  | panicFuncIdxUnwrap
  | panicFuncsGetMut
  | panicGetU8
  | panicCopyToSlice
  | unhandledInstr
  | outOfFuel
deriving DecidableEq

/-- `leb128::read::unsigned` (the crate rasm calls): accumulate 7 bits
per byte, little-endian, into a `u64`; a byte without the continuation
bit (high bit) ends the number; end of input is an I/O error; at the
tenth byte (shift 63) only `0x00` and `0x01` avoid `Overflow`. -/
def lebUnsignedAux : List UInt8 → Nat → Nat → Except Err (Nat × List UInt8)
  | [], _, _ => .error .eof
  | b :: rest, shift, acc =>
    if shift = 63 ∧ b ≠ 0x00 ∧ b ≠ 0x01 then .error .lebOverflow
    else
      let acc2 := (acc ||| ((b.toNat % 128) <<< shift)) % 2 ^ 64
      if b.toNat < 128 then .ok (acc2, rest)
      else lebUnsignedAux rest (shift + 7) acc2

/-- `leb128::read::unsigned` from the start of a byte list, returning the
value and the unread remainder. -/
def lebUnsigned (l : List UInt8) : Except Err (Nat × List UInt8) :=
  lebUnsignedAux l 0 0

/-- `leb128::read::signed`: same accumulation into an `i64` bit pattern,
then sign extension when the last byte has bit 6 set and fewer than 64
bits were filled; at shift 63 only `0x00` and `0x7F` avoid `Overflow`. -/
def lebSignedAux : List UInt8 → Nat → Nat → Except Err (Int × List UInt8)
  | [], _, _ => .error .eof
  | b :: rest, shift, acc =>
    if shift = 63 ∧ b ≠ 0x00 ∧ b ≠ 0x7F then .error .lebOverflow
    else
      let acc2 := (acc ||| ((b.toNat % 128) <<< shift)) % 2 ^ 64
      if b.toNat < 128 then
        let pat :=
          if shift + 7 < 64 ∧ 64 ≤ b.toNat then acc2 ||| (2 ^ 64 - 2 ^ (shift + 7))
          else acc2
        .ok (toInt64 pat, rest)
      else lebSignedAux rest (shift + 7) acc2

/-- `leb128::read::signed` from the start of a byte list. -/
def lebSigned (l : List UInt8) : Except Err (Int × List UInt8) :=
  lebSignedAux l 0 0

/-- `module.rs` `Module::parse_val`: one value-type tag byte.  The source
reads the byte with `get_u8`, which aborts on an empty buffer. -/
def parse_val : List UInt8 → Except Err (Val × List UInt8)
  | [] => .error .panicGetU8
  | b :: rest =>
    if b = 0x7F then .ok (.I32, rest)
    else if b = 0x7E then .ok (.I64, rest)
    else if b = 0x7D then .ok (.F32, rest)
    else if b = 0x7C then .ok (.F64, rest)
    else if b = 0x7B then .ok (.V128, rest)
    else if b = 0x70 then .ok (.FuncRef, rest)
    else if b = 0x6F then .ok (.ExternRef, rest)
    else .error (.unknownType b)

/-- Numeric pattern of a little-endian byte sequence (the bit-level
content of `f64::from_le_bytes`). -/
def leBytesToNat (l : List UInt8) : Nat :=
  l.foldr (fun b acc => b.toNat + 256 * acc) 0

/-- `module.rs` `Module::parse_instructions`, with an explicit fuel for
termination (every loop iteration consumes at least the opcode byte, so
any fuel above the input length is enough; `parse_instructions` passes
`length + 1`).  The loop ends when no bytes remain — an `End` opcode is
pushed like any other instruction and does NOT stop the loop — opcode
`0x00` is consumed without producing an instruction, and an unmatched
opcode byte falls through to `continue`, silently skipping it. -/
def parseInstrsAux : Nat → List UInt8 → Except Err (List Instr)
  | _, [] => .ok []
  | 0, _ :: _ => .error .outOfFuel
  | fuel + 1, b :: rest =>
    if b = 0x00 then parseInstrsAux fuel rest
    else if b = 0x20 then
      match lebUnsigned rest with
      | .error e => .error e
      | .ok (n, r) =>
        match parseInstrsAux fuel r with
        | .error e => .error e
        | .ok is => .ok (Instr.LocalGet (n % 2 ^ 32) :: is)
    else if b = 0x28 then
      match lebSigned rest with
      | .error e => .error e
      | .ok (z, r) =>
        match parseInstrsAux fuel r with
        | .error e => .error e
        | .ok is => .ok (Instr.LoadI32 (wrap32 z) :: is)
    else if b = 0x44 then
      if rest.length < 8 then .error .panicCopyToSlice
      else
        match parseInstrsAux fuel (rest.drop 8) with
        | .error e => .error e
        | .ok is => .ok (Instr.ConstF64 (leBytesToNat (rest.take 8)) :: is)
    else if b = 0x6A then
      match parseInstrsAux fuel rest with
      | .error e => .error e
      | .ok is => .ok (Instr.I32Add :: is)
    else if b = 0x6C then
      match parseInstrsAux fuel rest with
      | .error e => .error e
      | .ok is => .ok (Instr.I32Mul :: is)
    else if b = 0x10 then
      match lebUnsigned rest with
      | .error e => .error e
      | .ok (n, r) =>
        match parseInstrsAux fuel r with
        | .error e => .error e
        | .ok is => .ok (Instr.Call (n % 2 ^ 32) :: is)
    else if b = 0x80 then
      match parseInstrsAux fuel rest with
      | .error e => .error e
      | .ok is => .ok (Instr.DivI32U :: is)
    else if b = 0x0B then
      match parseInstrsAux fuel rest with
      | .error e => .error e
      | .ok is => .ok (Instr.End :: is)
    else parseInstrsAux fuel rest

/-- `module.rs` `Module::parse_instructions` on a whole byte range. -/
def parse_instructions (l : List UInt8) : Except Err (List Instr) :=
  parseInstrsAux (l.length + 1) l

/-- The local-declaration loop of `module.rs` `Module::parse_code_section`
(lines 223–229): `count` groups, each a repeat count (unsigned varint)
followed by one value-type byte, expanded run-length style. -/
def parseLocalGroups : Nat → List UInt8 → Except Err (List Val × List UInt8)
  | 0, l => .ok ([], l)
  | k + 1, l =>
    match lebUnsigned l with
    | .error e => .error e
    | .ok (cnt, l1) =>
      match parse_val l1 with
      | .error e => .error e
      | .ok (v, l2) =>
        match parseLocalGroups k l2 with
        | .error e => .error e
        | .ok (vs, l3) => .ok (List.replicate cnt v ++ vs, l3)

/-- The per-function loop of `module.rs` `Module::parse_code_section`
(lines 215–237).  For the `i`-th declared body: `funcs.get_mut(i).unwrap()`
aborts when `i` is out of range; the instruction-byte count is computed as
`func_len - num_locals - 1` in `u64` arithmetic (`num_locals` is the
number of local GROUPS; the subtraction wraps modulo `2 ^ 64` in an
optimized build); `bytes::Buf::take` then yields at most that many bytes. -/
def parseCodeBodies : Nat → Nat → List UInt8 → List Func → Except Err (List Func × List UInt8)
  | 0, _, l, funcs => .ok (funcs, l)
  | k + 1, i, l, funcs =>
    match funcs.get? i with
    | none => .error .panicFuncsGetMut
    | some f =>
      match lebUnsigned l with
      | .error e => .error e
      | .ok (func_len, l1) =>
        match lebUnsigned l1 with
        | .error e => .error e
        | .ok (num_locals, l2) =>
          let er := (func_len + 2 ^ 64 - num_locals - 1) % 2 ^ 64
          match parseLocalGroups num_locals l2 with
          | .error e => .error e
          | .ok (locals, l3) =>
            match parse_instructions (l3.take er) with
            | .error e => .error e
            | .ok body =>
              parseCodeBodies k (i + 1) (l3.drop er)
                (funcs.set i { f with locals := locals, body := body })

/-- `module.rs` `Module::parse_code_section`: section length (read and
ignored), body count, then the per-function loop.  Returns the updated
module and the unread remainder of the stream. -/
def parse_code_section (l : List UInt8) (m : Module) : Except Err (Module × List UInt8) :=
  match lebUnsigned l with
  | .error e => .error e
  | .ok (_section_len, l1) =>
    match lebUnsigned l1 with
    | .error e => .error e
    | .ok (n, l2) =>
      match parseCodeBodies n 0 l2 m.funcs with
      | .error e => .error e
      | .ok (funcs, l3) => .ok ({ m with funcs := funcs }, l3)

/-- `instance.rs` `Value`: runtime values; only `I32` is supported.  The
payload is the mathematical value of the Rust `i32`. -/
inductive Value where
  | I32 (n : Int)
deriving DecidableEq

/-- `instance.rs` `Function`: the callable handle returned by export
lookup, holding a clone of the decoded body. -/
structure Function where
  body : List Instr
deriving DecidableEq

/-- `instance.rs` `Exports`: the export table of an instance. -/
structure Exports where
  exports : List Export
  functions : List Func
deriving DecidableEq

/-- The lookup loop of `Exports::get_function` (`instance.rs` lines
30–36): the index of the first export, in declaration order, whose name
equals the argument. -/
def findExportIdx : List Export → String → Option Nat
  | [], _ => none
  | e :: rest, name => if e.name = name then some e.idx else findExportIdx rest name

/-- `instance.rs` `Exports::get_function`: first matching export, then
`functions.get(idx).unwrap()` (an abort when the index is out of range),
else `bail!("cannot find function {name}")`. -/
def Exports.get_function (E : Exports) (name : String) : Except Err Function :=
  match findExportIdx E.exports name with
  | some idx =>
    match E.functions.get? idx with
    | some f => .ok { body := f.body }
    | none => .error .panicFuncIdxUnwrap
  | none => .error (.exportNotFound name)

/-- `instance.rs` `Function::i32_add`: pop `left` (top of stack), pop
`right`, return `left + right`.  The source uses the native `+` on `i32`;
in an optimized build that is two's-complement wraparound, the semantics
the spec ascribes to it ("wrapping, implicit via native width", §9).
Any other pop outcome is the `bail!("wrong types for i32_add")` branch,
which with the single-variant `Value` means stack underflow. -/
def i32_add : List Value → Except Err (Value × List Value)
  | Value.I32 left :: Value.I32 right :: s => .ok (Value.I32 (wrap32 (left + right)), s)
  | _ => .error .typeMismatchI32

/-- `instance.rs` `Function::i32_mul`: pop two values and return
`left.saturating_mul(right)` — saturating, not wrapping. -/
def i32_mul : List Value → Except Err (Value × List Value)
  | Value.I32 left :: Value.I32 right :: s => .ok (Value.I32 (sat32 (left * right)), s)
  | _ => .error .typeMismatchI32

/-- The instruction loop of `Function::call` (`instance.rs` lines 57–70),
returning the operand stack at loop exit (head = top).  `LocalGet n`
indexes `locals[n]`, an abort when out of range; `End` breaks out of the
loop.  The source's `match` names only these four constructors and is
not exhaustive over `Instr` as written; the remaining constructors are
modelled as an explicit failure. -/
def execInstrs : List Instr → List Value → List Value → Except Err (List Value)
  | [], _, stack => .ok stack
  | instr :: rest, locals, stack =>
    match instr with
    | .LocalGet n =>
      match locals.get? n with
      | some v => execInstrs rest locals (v :: stack)
      | none => .error .panicLocalIndex
    | .I32Add =>
      match i32_add stack with
      | .error e => .error e
      | .ok (v, s) => execInstrs rest locals (v :: s)
    | .I32Mul =>
      match i32_mul stack with
      | .error e => .error e
      | .ok (v, s) => execInstrs rest locals (v :: s)
    | .End => .ok stack
    | _ => .error .unhandledInstr

/-- `instance.rs` `Function::call`: run the body against the argument
binding (`locals`) starting from an empty operand stack, then
`stack.pop().unwrap()` — an abort when the stack is empty.  The store
parameter is received (as in the source signature) and never read. -/
def Function.call {σ : Type} (f : Function) (_store : σ) (locals : List Value) :
    Except Err Value :=
  match execInstrs f.body locals [] with
  | .error e => .error e
  | .ok stack =>
    match stack with
    | v :: _ => .ok v
    | [] => .error .panicPopUnwrap

/-! ## Helper lemmas

Consumption bounds for the LEB128 readers (each successful read consumes
at least one byte), and adequacy of the fuel passed to `parseInstrsAux`:
the result is the same for every fuel above the input length, so the
`length + 1` used by `parse_instructions` is immaterial and the
`outOfFuel` branch is unreachable from it. -/

/-- A successful unsigned-varint read leaves a strictly shorter remainder. -/
theorem lebUnsignedAux_length {l : List UInt8} {s a v : Nat} {r : List UInt8}
    (h : lebUnsignedAux l s a = .ok (v, r)) : r.length < l.length := by
  induction l generalizing s a v r with
  | nil => simp [lebUnsignedAux] at h
  | cons b rest ih =>
    simp only [lebUnsignedAux] at h
    split at h
    · exact absurd h (by simp)
    · split at h
      · obtain ⟨hv, hr⟩ := by simpa using h
        simp [← hr, List.length_cons, Nat.lt_succ_self]
      · exact Nat.lt_trans (ih h) (by simp)

/-- `lebUnsignedAux_length` at the entry point. -/
theorem lebUnsigned_length {l : List UInt8} {v : Nat} {r : List UInt8}
    (h : lebUnsigned l = .ok (v, r)) : r.length < l.length :=
  lebUnsignedAux_length h

/-- A successful signed-varint read leaves a strictly shorter remainder. -/
theorem lebSignedAux_length {l : List UInt8} {s a : Nat} {v : Int} {r : List UInt8}
    (h : lebSignedAux l s a = .ok (v, r)) : r.length < l.length := by
  induction l generalizing s a v r with
  | nil => simp [lebSignedAux] at h
  | cons b rest ih =>
    simp only [lebSignedAux] at h
    split at h
    · exact absurd h (by simp)
    · split at h
      · obtain ⟨hv, hr⟩ := by simpa using h
        simp [← hr, List.length_cons, Nat.lt_succ_self]
      · exact Nat.lt_trans (ih h) (by simp)

/-- `lebSignedAux_length` at the entry point. -/
theorem lebSigned_length {l : List UInt8} {v : Int} {r : List UInt8}
    (h : lebSigned l = .ok (v, r)) : r.length < l.length :=
  lebSignedAux_length h

set_option maxHeartbeats 1600000 in
/-- Any two fuels above the input length give `parseInstrsAux` the same
result: the fuel is a termination artifact, not part of the semantics. -/
theorem parseInstrsAux_fuel_adequate :
    ∀ (f g : Nat) (l : List UInt8), l.length < f → l.length < g →
      parseInstrsAux f l = parseInstrsAux g l := by
  intro f
  induction f with
  | zero => intro g l hf _; exact absurd hf (Nat.not_lt_zero _)
  | succ f ih =>
    intro g l hf hg
    cases l with
    | nil =>
      cases g with
      | zero => exact absurd hg (Nat.not_lt_zero _)
      | succ g => rfl
    | cons b rest =>
      cases g with
      | zero => exact absurd hg (Nat.not_lt_zero _)
      | succ g =>
        have hf2 : rest.length < f := by simp [List.length_cons] at hf; omega
        have hg2 : rest.length < g := by simp [List.length_cons] at hg; omega
        simp only [parseInstrsAux]
        split_ifs
        · exact ih g rest hf2 hg2
        · cases hleb : lebUnsigned rest with
          | error e => rfl
          | ok p =>
            obtain ⟨n, r⟩ := p
            have hr := lebUnsigned_length hleb
            simp only [ih g r (hr.trans hf2) (hr.trans hg2)]
        · cases hleb : lebSigned rest with
          | error e => rfl
          | ok p =>
            obtain ⟨z, r⟩ := p
            have hr := lebSigned_length hleb
            simp only [ih g r (hr.trans hf2) (hr.trans hg2)]
        · rfl
        · have hd : (rest.drop 8).length < f := by
            simp [List.length_drop]; omega
          have hd2 : (rest.drop 8).length < g := by
            simp [List.length_drop]; omega
          rw [ih g (rest.drop 8) hd hd2]
        · rw [ih g rest hf2 hg2]
        · rw [ih g rest hf2 hg2]
        · cases hleb : lebUnsigned rest with
          | error e => rfl
          | ok p =>
            obtain ⟨n, r⟩ := p
            have hr := lebUnsigned_length hleb
            simp only [ih g r (hr.trans hf2) (hr.trans hg2)]
        · rw [ih g rest hf2 hg2]
        · rw [ih g rest hf2 hg2]
        · exact ih g rest hf2 hg2

/-- `parseInstrsAux` with any sufficient fuel computes `parse_instructions`. -/
theorem parse_instructions_fuel (fuel : Nat) (l : List UInt8) (h : l.length < fuel) :
    parseInstrsAux fuel l = parse_instructions l :=
  parseInstrsAux_fuel_adequate fuel (l.length + 1) l h (Nat.lt_succ_self _)

/-- The export-lookup loop is first-match search in declaration order. -/
theorem findExportIdx_eq_find (l : List Export) (name : String) :
    findExportIdx l name = (l.find? fun ex => ex.name == name).map Export.idx := by
  induction l with
  | nil => rfl
  | cons e rest ih =>
    by_cases h : e.name = name
    · simp [findExportIdx, List.find?_cons, h]
    · simp [findExportIdx, List.find?_cons, h, ih]

/-! ## Concrete fixtures used by the claim theorems -/

/-- The body `LocalGet 0, LocalGet 1, I32Add, End` of the spec's running
example. -/
def addBody : List Instr := [Instr.LocalGet 0, Instr.LocalGet 1, Instr.I32Add, Instr.End]

/-- A sibling body using `I32Mul`. -/
def mulBody : List Instr := [Instr.LocalGet 0, Instr.LocalGet 1, Instr.I32Mul, Instr.End]

/-- A signature `(i32, i32) -> i32`. -/
def binSig : FuncType := { params := [Val.I32, Val.I32], results := [Val.I32] }

/-- An export table with exports `[("add", 0), ("mul", 1)]` over two
functions. -/
def exampleExports : Exports :=
  { exports := [{ name := "add", ty := 0, idx := 0 }, { name := "mul", ty := 0, idx := 1 }],
    functions := [{ ty := binSig, locals := [], body := addBody },
                  { ty := binSig, locals := [], body := mulBody }] }

/-- A decoded function with empty signature, locals and body, as the
Function section leaves it before the Code section fills it in. -/
def trivialFunc : Func := { ty := { params := [], results := [] }, locals := [], body := [] }

/-! ## Claims -/

/-- C1: the claim states that `I32Mul` pops two I32 operands and pushes
their product computed with two's-complement 32-bit wraparound on
overflow, never saturating.  The code instead uses `i32::saturating_mul`
(`instance.rs` line 85): on the operand stack whose two top values are
`a = b = 65536`, both `i32_mul` and a whole call executing `I32Mul` push
`I32 2147483647` (the saturation bound), while wraparound gives `I32 0`
(third conjunct). -/
theorem i32_mul_saturates_on_overflow :
    i32_mul [Value.I32 65536, Value.I32 65536] = .ok (Value.I32 2147483647, []) ∧
    Function.call (σ := Unit) { body := mulBody } ()
      [Value.I32 65536, Value.I32 65536] = .ok (Value.I32 2147483647) ∧
    wrap32 (65536 * 65536) = 0 :=
  ⟨rfl, rfl, rfl⟩

/-- C2: calling a function whose body is `LocalGet 0, LocalGet 1, I32Add,
End` with arguments `[I32 12, I32 42]` returns `I32 54`, and with
`[I32 2147483647, I32 1]` returns `I32 (-2147483648)`: addition wraps on
overflow. -/
theorem call_add_body_examples :
    Function.call (σ := Unit) { body := addBody } ()
      [Value.I32 12, Value.I32 42] = .ok (Value.I32 54) ∧
    Function.call (σ := Unit) { body := addBody } ()
      [Value.I32 2147483647, Value.I32 1] = .ok (Value.I32 (-2147483648)) :=
  ⟨rfl, rfl⟩

/-- C3 counterexample: the claim states that no instruction is produced
from any byte after the first `End` opcode (0x0B).  On the body bytes
`[0x0B, 0x6A]` the decoder produces `[End, I32Add]`: the `I32Add` is
decoded from the byte after the first `End`. -/
theorem parse_instructions_continues_after_end_ce :
    parse_instructions [0x0B, 0x6A] = .ok [Instr.End, Instr.I32Add] := rfl

/-- C3 amended: instruction decoding does not terminate at the first
`End` opcode.  An `End` byte contributes an `End` instruction and
decoding continues with the remaining bytes of the range; the loop stops
only when the byte range is exhausted (`module.rs` lines 260–291).  It is
execution (`Function::call`) that stops at the first `End`. -/
theorem parse_instructions_end_step (rest : List UInt8) :
    parse_instructions (0x0B :: rest) =
      match parse_instructions rest with
      | .error e => .error e
      | .ok is => .ok (Instr.End :: is) := rfl

/-- C4: the claim states that an opcode byte outside the supported set
occurring before the terminating `End` makes decoding fail with an
unknown-opcode error.  The code's wildcard arm (`module.rs` lines
284–287) instead consumes the byte and continues: `[0x01, 0x0B]` decodes
without error to `[End]`, silently dropping the unsupported byte
`0x01`. -/
theorem parse_instructions_silently_skips_unknown_opcode :
    parse_instructions [0x01, 0x0B] = .ok [Instr.End] := rfl

/-- C5: the claim states that a call whose operand stack is empty when
execution reaches `End` or exhausts the body fails with a MissingResult
error, not a crash.  The code runs `stack.pop().unwrap()`
(`instance.rs` line 72): executing a body of just `End` (and likewise an
empty body) with no locals aborts — modelled `panicPopUnwrap` — instead
of returning an error value. -/
theorem call_end_with_empty_stack_aborts :
    Function.call (σ := Unit) { body := [Instr.End] } () [] = .error Err.panicPopUnwrap ∧
    Function.call (σ := Unit) { body := [] } () [] = .error Err.panicPopUnwrap :=
  ⟨rfl, rfl⟩

/-- C6: the claim states that `LocalGet n` with `n` at or past the length
of the locals binding fails with a ReferenceError, not a crash.  The code
indexes `locals[n]` directly (`instance.rs` line 59): `LocalGet 5`
against a 2-value binding aborts with an index-out-of-bounds — modelled
`panicLocalIndex` — instead of returning an error value. -/
theorem call_localget_out_of_range_aborts :
    Function.call (σ := Unit) { body := [Instr.LocalGet 5, Instr.End] } ()
      [Value.I32 1, Value.I32 2] = .error Err.panicLocalIndex := rfl

/-- C7: the claim states that a Code-section body count differing from
the number of functions fails with a FunctionCountMismatch error, neither
panicking nor silently decoding a different number of bodies.  The code
never compares the counts (`module.rs` lines 214–216): with count 1 and
no functions, `funcs.get_mut(0).unwrap()` aborts — modelled
`panicFuncsGetMut` — and with count 0 and one function it returns
successfully, silently decoding no bodies. -/
theorem parse_code_section_count_mismatch_unchecked :
    parse_code_section [0x00, 0x01] { funcs := [], exports := [] } =
      .error Err.panicFuncsGetMut ∧
    parse_code_section [0x00, 0x00] { funcs := [trivialFunc], exports := [] } =
      .ok ({ funcs := [trivialFunc], exports := [] }, []) :=
  ⟨rfl, rfl⟩

/-- C8: the claim states that after the local-declaration groups the
decoder decodes exactly `body_len − locals_header_len` bytes as the
instruction bytes, so that decoding is a round-trip even with local
groups.  The code computes `func_len - num_locals - 1`
(`module.rs` line 221), subtracting the number of local GROUPS instead of
their encoded byte length.  Failing input: a correctly encoded section —
section length 7, count 1, body length 4, one local group (repeat 1,
type 0x7F = I32), instruction byte 0x0B (`End`) — followed by the next
byte of the stream, 0x20.  The locals header is 3 bytes, so 1 instruction
byte remains (`[0x0B]`, which decodes to `[End]`: second conjunct), but
the code takes `4 − 1 − 1 = 2` bytes, steals the 0x20 from the stream,
and fails with an end-of-input error while reading the immediate of the
stolen `LocalGet` opcode.  Round-trip therefore fails as soon as a local
group is declared. -/
theorem parse_code_section_miscounts_locals_header :
    parse_code_section [0x07, 0x01, 0x04, 0x01, 0x01, 0x7F, 0x0B, 0x20]
      { funcs := [trivialFunc], exports := [] } = .error Err.eof ∧
    parse_instructions [0x0B] = .ok [Instr.End] :=
  ⟨rfl, rfl⟩

/-- C9: export lookup returns the function referenced by the first export
in declaration order (`List.find?`) whose name equals the argument, and
fails with an export-not-found error when no export has that name.  (When
the matching export's index is out of range the source aborts in
`functions.get(idx).unwrap()` instead; the claim's "the function
referenced by" presupposes the index is in range, hence the second
hypothesis.) -/
theorem get_function_first_match (E : Exports) (name : String) :
    (E.exports.find? (fun ex => ex.name == name) = none →
      E.get_function name = .error (Err.exportNotFound name)) ∧
    (∀ ex f, E.exports.find? (fun ex => ex.name == name) = some ex →
      E.functions.get? ex.idx = some f →
      E.get_function name = .ok { body := f.body }) := by
  constructor
  · intro h
    unfold Exports.get_function
    rw [findExportIdx_eq_find, h]
    rfl
  · intro ex f h1 h2
    unfold Exports.get_function
    rw [findExportIdx_eq_find, h1]
    dsimp only [Option.map]
    rw [h2]

/-- C9 witness: on the module with exports `[("add", 0), ("mul", 1)]`,
lookup of "add" returns the function at index 0 and lookup of "sub"
fails with the export-not-found error. -/
theorem get_function_first_match_witness :
    exampleExports.get_function "add" = .ok { body := addBody } ∧
    exampleExports.get_function "sub" = .error (Err.exportNotFound "sub") :=
  ⟨(get_function_first_match exampleExports "add").2 { name := "add", ty := 0, idx := 0 }
      { ty := binSig, locals := [], body := addBody } rfl rfl,
   (get_function_first_match exampleExports "sub").1 rfl⟩

/-- C10: execution is deterministic.  `Function::call` reads nothing but
the decoded body and the argument values; in particular its result does
not depend on the store at all, so two invocations with the same body and
the same arguments — under any two stores of any two types — produce
identical outcomes. -/
theorem call_store_independent {σ τ : Type} (s1 : σ) (s2 : τ) (f : Function)
    (args : List Value) : f.call s1 args = f.call s2 args := rfl

end Rasm
